import Mathlib

/-!
Verification development for the catalog-matching and classification engine
of Pinecone (pinecone.cpp).

Shallow-embedding conventions:
* C++ `std::string` values are modelled as `List Char` (the identifiers and
  labels handled by the program are ASCII byte strings).
* `std::map` is modelled as an association list whose observable operations
  (`find`, `operator[]` assignment) are `lookupMap` and `mapInsert`; only
  lookup is observable in the claims, so the physical key order of the map
  is irrelevant.
* The parsed rapidjson document is modelled by the inductive `JValue`; member
  access `operator[]` follows rapidjson release semantics (a missing member
  reads as a null value), while a `Get*` call on a value of the wrong type —
  which is a failed RAPIDJSON_ASSERT in a debug build and undefined behaviour
  in a release build — is modelled as the distinguished error
  `LoadErr.typeAssert`, distinct from the `std::runtime_error` throws of
  `loadJSONData`, which are modelled as `LoadErr.malformedCatalog`.
* The filesystem subtree passed to the scan is modelled by `FSEntry`; a file
  carries the byte list that the external SHA-1 digest provider would return
  for its contents (`none` when the file is unreadable, i.e. `getSHA1Hash`
  throws).  The hex rendering of the digest (pinecone.cpp lines 151-156) is
  part of the embedding.
* Console output lines that express classification decisions are modelled as
  `ScanEvent` values emitted in traversal order; purely decorative debug
  prints are not modelled.
* `main` is modelled for the non-Windows build (the `#else` branch of the
  `_WIN32` conditional), which is the build of this environment.
-/

set_option maxHeartbeats 1000000

abbrev Str := List Char

/-- C `::tolower` in the C locale, applied to one byte: characters `A`-`Z`
are shifted to `a`-`z`, everything else is unchanged. -/
def cToLower (c : Char) : Char :=
  if 65 ≤ c.toNat ∧ c.toNat ≤ 90 then Char.ofNat (c.toNat + 32) else c

/-- Models `std::transform(s.begin(), s.end(), s.begin(), ::tolower)` as used at
pinecone.cpp lines 79, 177 and 193. -/
def strToLower (s : Str) : Str := s.map cToLower

/-- pinecone.cpp lines 159-162: `std::find` over a vector of strings. -/
def contains (vec : List Str) (val : Str) : Bool :=
  vec.any (fun s => s == val)

/-- Models the `std::map` assignment `m[k] = v`: overwrites the value when the key is
already present, otherwise adds the binding. -/
def mapInsert {β : Type} : List (Str × β) → Str → β → List (Str × β)
  | [], k, v => [(k, v)]
  | (k2, v2) :: rest, k, v =>
      if k2 = k then (k2, v) :: rest else (k2, v2) :: mapInsert rest k v

/-- Models `std::map::find`, observed through the value found: the value of the
first binding whose key equals `k`. -/
def lookupMap {β : Type} : List (Str × β) → Str → Option β
  | [], _ => none
  | (k2, v) :: rest, k => if k2 == k then some v else lookupMap rest k

/-- A parsed JSON document (the output of `rapidjson::Document::Parse`). -/
inductive JValue : Type where
  | null : JValue
  | jbool : Bool → JValue
  | jnum : Int → JValue
  | jstr : Str → JValue
  | jarr : List JValue → JValue
  | jobj : List (Str × JValue) → JValue

/-- rapidjson `GenericValue::operator[](name)` in a release build: the first
member with the given name, or a null value when the member is absent. -/
def JValue.getMember : JValue → Str → JValue
  | .jobj ms, n =>
      match ms.find? (fun m => m.1 == n) with
      | some m => m.2
      | none => .null
  | _, _ => .null

/-- rapidjson `IsObject()`. -/
def JValue.isObjB : JValue → Bool
  | .jobj _ => true
  | _ => false

/-- rapidjson `IsString()`. -/
def JValue.isStrB : JValue → Bool
  | .jstr _ => true
  | _ => false

/-- pinecone.cpp lines 22-26. -/
structure TitleUpdate where
  Name : Str
  SHA1 : Str
deriving DecidableEq

/-- pinecone.cpp line 28: `std::map<std::string, std::string>`. -/
abbrev ArchivedContent := List (Str × Str)

/-- pinecone.cpp lines 30-37; default-constructed fields are empty. -/
structure TitleData where
  TitleName : Str := []
  ContentIDs : List Str := []
  TitleUpdates : List TitleUpdate := []
  TitleUpdatesKnown : List TitleUpdate := []
  Archived : List ArchivedContent := []
deriving DecidableEq

/-- pinecone.cpp lines 39-42: the `Titles` member of `struct Titles`,
a `std::map<std::string, TitleData>`. -/
abbrev Titles := List (Str × TitleData)

/-- How catalog construction can fail: `malformedCatalog` models the
`std::runtime_error` throws at pinecone.cpp lines 63 and 70; `typeAssert`
models a failed RAPIDJSON_ASSERT (undefined behaviour in release builds)
from an unchecked `Get*`/member access on a value of the wrong shape. -/
inductive LoadErr : Type where
  | malformedCatalog : LoadErr
  | typeAssert : LoadErr
deriving DecidableEq

/-- rapidjson `GetString()`: asserts that the value is a string. -/
def getStringE : JValue → Except LoadErr Str
  | .jstr s => .ok s
  | _ => .error .typeAssert

/-- Error-propagating map over a list: the C++ `for` loops that build the
per-title vectors, where any failed assertion aborts the whole load. -/
def mapME {α β : Type} (f : α → Except LoadErr β) : List α → Except LoadErr (List β)
  | [] => .ok []
  | x :: xs =>
      match f x with
      | .error e => .error e
      | .ok y =>
          match mapME f xs with
          | .error e => .error e
          | .ok ys => .ok (y :: ys)

/-- Loop body at pinecone.cpp lines 96-102 / 107-113: unchecked
`update["Name"].GetString()` and `update["SHA1"].GetString()`; `operator[]`
itself asserts that `update` is an object. -/
def loadUpdate (u : JValue) : Except LoadErr TitleUpdate :=
  match u with
  | .jobj _ =>
      match getStringE (u.getMember ("Name".data)) with
      | .error e => .error e
      | .ok n =>
          match getStringE (u.getMember ("SHA1".data)) with
          | .error e => .error e
          | .ok s => .ok ⟨n, s⟩
  | _ => .error .typeAssert

/-- Inner loop at pinecone.cpp lines 121-124: members of one archived JSON
object inserted into a `std::map`, with unchecked `GetString()` on values. -/
def loadArchMembers : List (Str × JValue) → ArchivedContent → Except LoadErr ArchivedContent
  | [], acc => .ok acc
  | (k, v) :: rest, acc =>
      match getStringE v with
      | .error e => .error e
      | .ok s => loadArchMembers rest (mapInsert acc k s)

/-- Loop body at pinecone.cpp lines 118-126: `MemberBegin`/`MemberEnd`
iteration asserts that the archived entry is an object. -/
def loadArchived : JValue → Except LoadErr ArchivedContent
  | .jobj ms => loadArchMembers ms []
  | _ => .error .typeAssert

/-- The `Content IDs` section, pinecone.cpp lines 86-92: skipped when the
member is missing or not an array, verbatim strings otherwise. -/
def loadCids (title : JValue) : Except LoadErr (List Str) :=
  match title.getMember ("Content IDs".data) with
  | .jarr xs => mapME getStringE xs
  | _ => .ok []

/-- The `Title Updates` section, pinecone.cpp lines 94-103. -/
def loadTUs (title : JValue) : Except LoadErr (List TitleUpdate) :=
  match title.getMember ("Title Updates".data) with
  | .jarr xs => mapME loadUpdate xs
  | _ => .ok []

/-- The `Title Updates Known` section, pinecone.cpp lines 105-114. -/
def loadTUKs (title : JValue) : Except LoadErr (List TitleUpdate) :=
  match title.getMember ("Title Updates Known".data) with
  | .jarr xs => mapME loadUpdate xs
  | _ => .ok []

/-- The `Archived` section, pinecone.cpp lines 116-127. -/
def loadArchs (title : JValue) : Except LoadErr (List ArchivedContent) :=
  match title.getMember ("Archived".data) with
  | .jarr xs => mapME loadArchived xs
  | _ => .ok []

/-- Per-title body of the load loop, pinecone.cpp lines 75-127.  `HasMember`
asserts that the title value is an object; each guarded section is skipped
when its member is missing or not of the guarded type. -/
def loadTitle (title : JValue) : Except LoadErr TitleData :=
  match title with
  | .jobj _ =>
      let tn : Str :=
        match title.getMember ("Title Name".data) with
        | .jstr s => s
        | _ => []
      match loadCids title with
      | .error e => .error e
      | .ok cids =>
          match loadTUs title with
          | .error e => .error e
          | .ok tus =>
              match loadTUKs title with
              | .error e => .error e
              | .ok tuks =>
                  match loadArchs title with
                  | .error e => .error e
                  | .ok arch => .ok ⟨tn, cids, tus, tuks, arch⟩
  | _ => .error .typeAssert

/-- The member loop of pinecone.cpp lines 73-130: each title key is
case-folded (line 79) and the built record is stored with
`titles.Titles[titleID] = data` (line 129). -/
def loadTitlesList : List (Str × JValue) → Titles → Except LoadErr Titles
  | [], acc => .ok acc
  | (k, v) :: rest, acc =>
      match loadTitle v with
      | .error e => .error e
      | .ok data => loadTitlesList rest (mapInsert acc (strToLower k) data)

/-- pinecone.cpp lines 58-131, from the parsed document on: catalog
construction.  Lines 61-64 throw when the document is null or not an object;
lines 66-71 throw when the `Titles` member is not an object. -/
def loadJSONData (jsonData : JValue) : Except LoadErr Titles :=
  if jsonData.isObjB = false then .error .malformedCatalog
  else
    match jsonData.getMember ("Titles".data) with
    | .jobj ms => loadTitlesList ms []
    | _ => .error .malformedCatalog

/-- One lower-case hexadecimal digit, as produced by `std::hex` output. -/
def hexDigit (n : Nat) : Char :=
  if n < 10 then Char.ofNat (48 + n) else Char.ofNat (87 + n)

/-- Models the zero-padded lower-case hex output statement at pinecone.cpp
lines 152-155 for one byte of the digest. -/
def byteToHex (b : Nat) : Str :=
  [hexDigit (b % 256 / 16), hexDigit (b % 16)]

/-- The hex-rendering tail of `getSHA1Hash`, pinecone.cpp lines 149-156:
the digest bytes produced by the external SHA-1 primitive, printed as
lower-case hex. -/
def getSHA1Hash (digestBytes : List Nat) : Str :=
  (digestBytes.map byteToHex).flatten

/-- Index of the rightmost `.` in a filename, if any. -/
def lastDotIdx : Str → Option Nat
  | [] => none
  | c :: rest =>
      match lastDotIdx rest with
      | some i => some (i + 1)
      | none => if c == '.' then some 0 else none

/-- Models `std::filesystem::path::extension()` on a filename: the substring from
the rightmost period to the end, except that the filenames `.` and `..` and a
period in leading position yield no extension. -/
def pathExtension (name : Str) : Str :=
  if name = (".".data) ∨ name = ("..".data) then []
  else
    match lastDotIdx name with
    | some i => if i = 0 then [] else name.drop i
    | none => []

/-- Models `std::string::find(char)`: index of the first occurrence. -/
def strFindChar : Str → Char → Option Nat
  | [], _ => none
  | c :: rest, ch =>
      if c == ch then some 0
      else (strFindChar rest ch).map (fun i => i + 1)

/-- pinecone.cpp lines 279-284: `name.find(first colon)` and, when found,
`name.substr(splitPosition + 1)`. -/
def stripUpdateName (name : Str) : Str :=
  match strFindChar name ':' with
  | some p => name.drop (p + 1)
  | none => name

/-- The archived-lookup loop at pinecone.cpp lines 203-212: `archivedName`
starts empty and receives the label of the first archived map containing the
content identifier (the loop breaks at the first hit). -/
def findArchivedLabel : List ArchivedContent → Str → Str
  | [], _ => []
  | m :: rest, cid =>
      match lookupMap m cid with
      | some v => v
      | none => findArchivedLabel rest cid

/-- The known-update loop at pinecone.cpp lines 274-292: the name of the
first entry whose `SHA1` equals the computed file hash. -/
def findKnownUpdate : List TitleUpdate → Str → Option Str
  | [], _ => none
  | u :: rest, h =>
      if h = u.SHA1 then some u.Name else findKnownUpdate rest h

/-- A discovered filesystem node.  A file carries the digest bytes that the
external SHA-1 provider yields for its contents, `none` when reading the
file fails (`getSHA1Hash` throws). -/
inductive FSEntry : Type where
  | file : Str → Option (List Nat) → FSEntry
  | dir : Str → List FSEntry → FSEntry

/-- Models `entry.path().filename()`. -/
def FSEntry.name : FSEntry → Str
  | .file n _ => n
  | .dir n _ => n

/-- Models `fs::exists(dir + "/" + n) && fs::is_directory(...)` followed by
iteration of that subdirectory: the entries of the child directory named
`n`, or `none` when it is absent or not a directory. -/
def findSubdir (entries : List FSEntry) (n : Str) : Option (List FSEntry) :=
  match entries.find? (fun e => e.name == n) with
  | some (.dir _ es) => some es
  | _ => none

/-- One classification decision, in the order the corresponding console line
is emitted by `checkForContent`. -/
inductive ScanEvent : Type where
  | missingRoot : ScanEvent
  | unknownTitle : Str → ScanEvent
  | foundTitle : Str → ScanEvent
  | noContentArea : Str → ScanEvent
  | noUpdatesArea : Str → ScanEvent
  | unknownContent : Str → ScanEvent
  | archivedContent : Str → Str → ScanEvent
  | unarchivedContent : Str → ScanEvent
  | recognizedBinary : Str → ScanEvent
  | unrecognizedFile : Str → ScanEvent
  | digestError : Str → ScanEvent
  | knownUpdate : Str → Str → Str → ScanEvent
  | unknownUpdate : Str → Str → ScanEvent
deriving DecidableEq

/-- pinecone.cpp lines 222-236: a regular file in an unarchived content
folder is recognized when its extension equals `.xbe` or `.xbx`, else
reported as an unknown file format. -/
def classifyContentFile : FSEntry → List ScanEvent
  | .file fname _ =>
      if pathExtension fname = (".xbe".data) ∨ pathExtension fname = (".xbx".data) then
        [ScanEvent.recognizedBinary fname]
      else
        [ScanEvent.unrecognizedFile fname]
  | .dir _ _ => []

/-- pinecone.cpp lines 188-244: one entry of the `$c` directory.  Only
directories are considered; the folder name is case-folded (line 193). -/
def processContentFolder (td : TitleData) : FSEntry → List ScanEvent
  | .file _ _ => []
  | .dir dname entries =>
      let contentID := strToLower dname
      if contains td.ContentIDs contentID = true then
        let archivedName := findArchivedLabel td.Archived contentID
        if archivedName ≠ [] then
          [ScanEvent.archivedContent contentID archivedName]
        else
          ScanEvent.unarchivedContent contentID ::
            (entries.map classifyContentFile).flatten
      else
        [ScanEvent.unknownContent contentID]

/-- pinecone.cpp lines 255-303: one entry of the `$u` directory.  Only
regular files whose extension equals `.xbe` or `.xbx` are processed; a
digest failure yields a local error event (lines 264-272). -/
def processUpdateFile (td : TitleData) (titleID : Str) : FSEntry → List ScanEvent
  | .dir _ _ => []
  | .file fname digest =>
      if pathExtension fname = (".xbe".data) ∨ pathExtension fname = (".xbx".data) then
        match digest with
        | none => [ScanEvent.digestError fname]
        | some bytes =>
            let fileHash := getSHA1Hash bytes
            match findKnownUpdate td.TitleUpdatesKnown fileHash with
            | some nm => [ScanEvent.knownUpdate titleID (stripUpdateName nm) fileHash]
            | none => [ScanEvent.unknownUpdate fname fileHash]
      else []

/-- pinecone.cpp lines 172-319: one entry of the scanned root.  Only
directories with an 8-character name are considered; the name is case-folded
and looked up in the catalog (lines 174-180). -/
def processTitle (titles : Titles) : FSEntry → List ScanEvent
  | .file _ _ => []
  | .dir dname entries =>
      if dname.length = 8 then
        let titleID := strToLower dname
        match lookupMap titles titleID with
        | some td =>
            ScanEvent.foundTitle td.TitleName ::
              ((match findSubdir entries ("$c".data) with
                | some subs => (subs.map (processContentFolder td)).flatten
                | none => [ScanEvent.noContentArea titleID]) ++
               (match findSubdir entries ("$u".data) with
                | some files => (files.map (processUpdateFile td titleID)).flatten
                | none => [ScanEvent.noUpdatesArea titleID]))
        | none => [ScanEvent.unknownTitle titleID]
      else []

/-- pinecone.cpp lines 163-321: the whole scan.  `none` for the root models
`!fs::exists(directory)` (lines 166-170). -/
def checkForContent (root : Option (List FSEntry)) (titles : Titles) : List ScanEvent :=
  match root with
  | none => [ScanEvent.missingRoot]
  | some es => (es.map (processTitle titles)).flatten

/-- State-passing rendering of the root-entry body: `checkForContent`
receives `titles` by mutable reference, but only ever reads it through
`titles.Titles.find`; each step returns the map it was given. -/
def processTitleS (e : FSEntry) (titles : Titles) : List ScanEvent × Titles :=
  match e with
  | .file _ _ => ([], titles)
  | .dir dname entries =>
      if dname.length = 8 then
        let titleID := strToLower dname
        match lookupMap titles titleID with
        | some td =>
            (ScanEvent.foundTitle td.TitleName ::
              ((match findSubdir entries ("$c".data) with
                | some subs => (subs.map (processContentFolder td)).flatten
                | none => [ScanEvent.noContentArea titleID]) ++
               (match findSubdir entries ("$u".data) with
                | some files => (files.map (processUpdateFile td titleID)).flatten
                | none => [ScanEvent.noUpdatesArea titleID])), titles)
        | none => ([ScanEvent.unknownTitle titleID], titles)
      else ([], titles)

/-- State-passing rendering of the root iteration of `checkForContent`. -/
def processEntriesS : List FSEntry → Titles → List ScanEvent × Titles
  | [], titles => ([], titles)
  | e :: rest, titles =>
      let r1 := processTitleS e titles
      let r2 := processEntriesS rest r1.2
      (r1.1 ++ r2.1, r2.2)

/-- State-passing rendering of `checkForContent`, threading the catalog the
C++ function holds by mutable reference. -/
def checkForContentS (root : Option (List FSEntry)) (titles : Titles) : List ScanEvent × Titles :=
  match root with
  | none => ([ScanEvent.missingRoot], titles)
  | some es => processEntriesS es titles

/-- The argument loop of `main`, pinecone.cpp lines 361-384; `none` means
`-help` was hit and `main` returned 0 immediately. -/
def parseArgsLoop : List Str → Bool → Str → Bool → Option (Bool × Str × Bool)
  | [], summarizeFlag, titleIDFlag, fatx => some (summarizeFlag, titleIDFlag, fatx)
  | a :: rest, summarizeFlag, titleIDFlag, fatx =>
      if a = ("-summarize".data) then parseArgsLoop rest true titleIDFlag fatx
      else if a.take 9 = ("-titleid=".data) then parseArgsLoop rest summarizeFlag (a.drop 9) fatx
      else if a = ("-fatxplorer".data) then parseArgsLoop rest summarizeFlag titleIDFlag true
      else if a = ("-help".data) then none
      else parseArgsLoop rest summarizeFlag titleIDFlag fatx

/-- Models `main`, pinecone.cpp lines 356-443, for the non-Windows build: exit
status and emitted scan events.  `catalogFile` is the parsed catalog file,
`none` when opening or reading `data/id_database.json` fails; `defaultRoot`
is the content of `dump/TDATA`, `none` when that directory is absent. -/
def mainRun (args : List Str) (catalogFile : Option JValue)
    (defaultRoot : Option (List FSEntry)) : Nat × List ScanEvent :=
  match parseArgsLoop args false [] false with
  | none => (0, [])
  | some (summarizeFlag, titleIDFlag, fatx) =>
      match catalogFile with
      | none => (1, [])
      | some j =>
          match loadJSONData j with
          | .error _ => (1, [])
          | .ok titles =>
              if titleIDFlag ≠ [] then (0, [])
              else if summarizeFlag = true then (0, [])
              else if fatx = true then (0, [])
              else
                match defaultRoot with
                | none => (1, [])
                | some entries => (0, checkForContent (some entries) titles)

/-- The invocation performs a content scan of `dump/TDATA`: no `-help`, no
`-titleid=`, no `-summarize`, no `-fatxplorer`. -/
def isScanMode (args : List Str) : Bool :=
  match parseArgsLoop args false [] false with
  | some (s, t, f) => t == ([] : Str) && !s && !f
  | none => false

/-- Opening, reading or building the catalog fails (the `catch` at
pinecone.cpp lines 391-395 fires). -/
def catalogLoadFails (catalogFile : Option JValue) : Bool :=
  match catalogFile with
  | none => true
  | some j =>
      match loadJSONData j with
      | .ok _ => false
      | .error _ => true

/-- A title-update JSON entry is well-typed: an object with string `Name`
and `SHA1` members. -/
def updateWF (u : JValue) : Bool :=
  match u with
  | .jobj _ => (u.getMember ("Name".data)).isStrB && (u.getMember ("SHA1".data)).isStrB
  | _ => false

/-- An archived JSON entry is well-typed: an object with string values. -/
def archWF (a : JValue) : Bool :=
  match a with
  | .jobj ms => ms.all (fun m => m.2.isStrB)
  | _ => false

/-- The `Content IDs` section of a title entry is well-typed. -/
def cidsWF (t : JValue) : Bool :=
  match t.getMember ("Content IDs".data) with
  | .jarr xs => xs.all JValue.isStrB
  | _ => true

/-- The `Title Updates` section of a title entry is well-typed. -/
def tusWF (t : JValue) : Bool :=
  match t.getMember ("Title Updates".data) with
  | .jarr xs => xs.all updateWF
  | _ => true

/-- The `Title Updates Known` section of a title entry is well-typed. -/
def tuksWF (t : JValue) : Bool :=
  match t.getMember ("Title Updates Known".data) with
  | .jarr xs => xs.all updateWF
  | _ => true

/-- The `Archived` section of a title entry is well-typed. -/
def archsWF (t : JValue) : Bool :=
  match t.getMember ("Archived".data) with
  | .jarr xs => xs.all archWF
  | _ => true

/-- A title JSON entry is well-typed: an object whose optional sections,
when present with the guarded type, contain only well-typed elements. -/
def titleWF (t : JValue) : Bool :=
  match t with
  | .jobj _ => cidsWF t && tusWF t && tuksWF t && archsWF t
  | _ => false

/-- The load step succeeded. -/
def exOk {α : Type} : Except LoadErr α → Bool
  | .ok _ => true
  | .error _ => false

/-- Default-constructed `TitleData`. -/
def td0 : TitleData := {}

/-- Catalog JSON whose only title carries one upper-case content identifier. -/
def c2Json : JValue :=
  JValue.jobj [(("Titles").data, JValue.jobj [(("abcd1234").data,
    JValue.jobj [(("Content IDs").data, JValue.jarr [JValue.jstr (("CAFE0001").data)])])])]

/-- The catalog that `loadJSONData` builds from `c2Json`. -/
def c2Cat : Titles := [(("abcd1234").data, { ContentIDs := [("CAFE0001").data] })]

/-- Scanned tree: title folder `abcd1234` holding one content folder named
`CAFE0001` under `$c`. -/
def c2Tree : List FSEntry :=
  [FSEntry.dir (("abcd1234").data)
    [FSEntry.dir (("$c").data) [FSEntry.dir (("CAFE0001").data) []]]]

/-- Catalog JSON whose only title has one `Title Updates` entry lacking both
the `Name` and the `SHA1` field. -/
def c3Json : JValue :=
  JValue.jobj [(("Titles").data, JValue.jobj [(("abcd1234").data,
    JValue.jobj [(("Title Updates").data, JValue.jarr [JValue.jobj []])])])]

/-- A well-typed single-title catalog JSON. -/
def c3JsonWF : JValue :=
  JValue.jobj [(("Titles").data, JValue.jobj [(("ABCD1234").data, JValue.jobj [])])]

/-- A title record whose only known update carries an upper-case hex hash. -/
def c4td : TitleData :=
  { TitleUpdatesKnown := [⟨("Update A").data, ("DEADBEEF").data⟩] }

/-- A title record whose only known update carries the canonical lower-case
hex digest of the byte sequence de ad be ef. -/
def c4tdLow : TitleData :=
  { TitleUpdatesKnown := [⟨("Update A").data, ("deadbeef").data⟩] }

/-! ### Shared lemmas -/

theorem strFindChar_no_hit (s : Str) (ch : Char) (h : ch ∉ s) :
    strFindChar s ch = none := by
  induction s with
  | nil => rfl
  | cons c rest ih =>
      simp only [List.mem_cons, not_or] at h
      have hc : (c == ch) = false := beq_eq_false_iff_ne.mpr (fun hcc => h.1 hcc.symm)
      simp [strFindChar, hc, ih h.2]

theorem strFindChar_first (pre post : Str) (ch : Char) (h : ch ∉ pre) :
    strFindChar (pre ++ ch :: post) ch = some pre.length := by
  induction pre with
  | nil => simp [strFindChar]
  | cons c rest ih =>
      simp only [List.mem_cons, not_or] at h
      have hc : (c == ch) = false := beq_eq_false_iff_ne.mpr (fun hcc => h.1 hcc.symm)
      simp [strFindChar, hc, ih h.2]

theorem processTitleS_spec (e : FSEntry) (titles : Titles) :
    processTitleS e titles = (processTitle titles e, titles) := by
  cases e with
  | file n d => rfl
  | dir n es =>
      simp only [processTitleS, processTitle]
      by_cases h : n.length = 8
      · simp only [if_pos h]
        cases lookupMap titles (strToLower n) <;> rfl
      · simp only [if_neg h]

theorem processEntriesS_spec (es : List FSEntry) (titles : Titles) :
    processEntriesS es titles = ((es.map (processTitle titles)).flatten, titles) := by
  induction es with
  | nil => rfl
  | cons e rest ih =>
      simp [processEntriesS, processTitleS_spec, ih]

/-! ### Claim theorems -/

/-- C7: known-update display-name stripping removes exactly the substring up
to and including the first colon of the matched name — later colons are
kept — leaves a name without a colon unchanged, and maps the name
`XYZ: Title Update 2` to ` Title Update 2` with the leading space
preserved. -/
theorem c7_strip_name :
    (∀ pre post : Str, ':' ∉ pre →
        stripUpdateName (pre ++ ':' :: post) = post)
  ∧ (∀ nm : Str, ':' ∉ nm → stripUpdateName nm = nm)
  ∧ stripUpdateName (("XYZ: Title Update 2").data) = ((" Title Update 2").data) := by
  refine ⟨?_, ?_, by decide⟩
  · intro pre post h
    simp only [stripUpdateName, strFindChar_first pre post ':' h]
    rw [show pre ++ ':' :: post = (pre ++ [':']) ++ post by simp,
      show pre.length + 1 = (pre ++ [':']).length by simp, List.drop_left]
  · intro nm h
    simp only [stripUpdateName, strFindChar_no_hit nm ':' h]

theorem c7_strip_name_witness :
    stripUpdateName (("ab:cd:ef").data) = (("cd:ef").data)
  ∧ stripUpdateName (("abc").data) = (("abc").data) :=
  ⟨c7_strip_name.1 (("ab").data) (("cd:ef").data) (by decide),
   c7_strip_name.2.1 (("abc").data) (by decide)⟩

/-- C6: both tie-breaks are first-occurrence in catalog declaration order:
the archived label reported for a content identifier is the one from the
first archived map containing that identifier, and the update name reported
for a digest is the one from the first `TitleUpdatesKnown` pair whose hash
equals the digest. -/
theorem c6_first_match :
    (∀ (pre : List ArchivedContent) (m : ArchivedContent)
        (post : List ArchivedContent) (cid v : Str),
        (∀ m2 ∈ pre, lookupMap m2 cid = none) → lookupMap m cid = some v →
        findArchivedLabel (pre ++ m :: post) cid = v)
  ∧ (∀ (pre : List TitleUpdate) (u : TitleUpdate) (post : List TitleUpdate) (dg : Str),
        (∀ u2 ∈ pre, ¬ dg = u2.SHA1) → dg = u.SHA1 →
        findKnownUpdate (pre ++ u :: post) dg = some u.Name) := by
  constructor
  · intro pre m post cid v hpre hm
    induction pre with
    | nil => simp [findArchivedLabel, hm]
    | cons m2 rest ih =>
        have h2 : lookupMap m2 cid = none := hpre m2 (List.mem_cons_self m2 rest)
        simp only [List.cons_append, findArchivedLabel, h2]
        exact ih (fun m3 h3 => hpre m3 (List.mem_cons_of_mem m2 h3))
  · intro pre u post dg hpre hu
    induction pre with
    | nil => simp [findKnownUpdate, hu]
    | cons u2 rest ih =>
        have h2 : ¬ dg = u2.SHA1 := hpre u2 (List.mem_cons_self u2 rest)
        simp only [List.cons_append, findKnownUpdate, if_neg h2]
        exact ih (fun u3 h3 => hpre u3 (List.mem_cons_of_mem u2 h3))

theorem c6_first_match_witness :
    findArchivedLabel [[(("aaaa").data, ("L0").data)], [(("cccc").data, ("L1").data)],
        [(("cccc").data, ("L2").data)]] (("cccc").data) = (("L1").data)
  ∧ findKnownUpdate [⟨("A").data, ("h0").data⟩, ⟨("B").data, ("h1").data⟩,
        ⟨("C").data, ("h1").data⟩] (("h1").data) = some (("B").data) :=
  ⟨c6_first_match.1 [[(("aaaa").data, ("L0").data)]] [(("cccc").data, ("L1").data)]
      [[(("cccc").data, ("L2").data)]] (("cccc").data) (("L1").data)
      (by decide) (by decide),
   c6_first_match.2 [⟨("A").data, ("h0").data⟩] ⟨("B").data, ("h1").data⟩
      [⟨("C").data, ("h1").data⟩] (("h1").data) (by decide) (by decide)⟩

/-- C10: at the scanned root, only directories whose name is exactly 8
characters long are considered; a regular file, or a directory of any other
name length, produces no classification event at all — not even
`unknownTitle` — while an 8-character directory always produces at least
one event. -/
theorem c10_root_filter :
    ∀ (titles : Titles) (n : Str) (d : Option (List Nat)) (es : List FSEntry),
      processTitle titles (FSEntry.file n d) = []
      ∧ (¬ n.length = 8 → processTitle titles (FSEntry.dir n es) = [])
      ∧ (n.length = 8 → processTitle titles (FSEntry.dir n es) ≠ []) := by
  intro titles n d es
  refine ⟨rfl, ?_, ?_⟩
  · intro h
    simp [processTitle, h]
  · intro h
    simp only [processTitle, if_pos h]
    cases lookupMap titles (strToLower n) <;> simp

theorem c10_root_filter_witness :
    processTitle [] (FSEntry.file (("abcd1234").data) none) = []
  ∧ processTitle [] (FSEntry.dir (("tooolong9").data) []) = []
  ∧ processTitle [] (FSEntry.dir (("abcd1234").data) []) ≠ [] :=
  ⟨(c10_root_filter [] (("abcd1234").data) none []).1,
   (c10_root_filter [] (("tooolong9").data) none []).2.1 (by decide),
   (c10_root_filter [] (("abcd1234").data) none []).2.2 (by decide)⟩

/-- C8: a digest failure is strictly local — an unreadable update file with
a recognized extension contributes exactly one `digestError` event, and the
events of every sibling update file are unchanged; likewise the events of
every other entry of the scanned root are unchanged, so no failure unwinds
past the node being classified. -/
theorem c8_digest_local :
    (∀ (td : TitleData) (tid fname : Str) (pre post : List FSEntry),
        (pathExtension fname = ((".xbe").data) ∨ pathExtension fname = ((".xbx").data)) →
        ((pre ++ FSEntry.file fname none :: post).map (processUpdateFile td tid)).flatten =
          (pre.map (processUpdateFile td tid)).flatten ++
            ScanEvent.digestError fname :: (post.map (processUpdateFile td tid)).flatten)
  ∧ (∀ (titles : Titles) (pre post : List FSEntry) (e : FSEntry),
        checkForContent (some (pre ++ e :: post)) titles =
          checkForContent (some pre) titles ++ processTitle titles e ++
            checkForContent (some post) titles) := by
  constructor
  · intro td tid fname pre post hx
    have hf : processUpdateFile td tid (FSEntry.file fname none) =
        [ScanEvent.digestError fname] := by
      simp only [processUpdateFile, if_pos hx]
    simp [List.map_append, List.map_cons, List.flatten_append, List.flatten_cons, hf]
  · intro titles pre post e
    simp [checkForContent, List.map_append, List.map_cons, List.flatten_append,
      List.flatten_cons, List.append_assoc]

theorem c8_digest_local_witness :
    (([] ++ FSEntry.file (("a.xbe").data) none :: []).map
        (processUpdateFile td0 (("abcd1234").data))).flatten =
      (([] : List FSEntry).map (processUpdateFile td0 (("abcd1234").data))).flatten ++
        ScanEvent.digestError (("a.xbe").data) ::
          (([] : List FSEntry).map (processUpdateFile td0 (("abcd1234").data))).flatten :=
  c8_digest_local.1 td0 (("abcd1234").data) (("a.xbe").data) [] [] (Or.inl (by decide))

/-- C9: the scan never mutates the catalog — the state-passing rendering of
`checkForContent`, which threads the `Titles` map the C++ function holds by
mutable reference, returns the catalog it was given unchanged for every
input tree, and emits exactly the events of the pure rendering. -/
theorem c9_no_mutation :
    ∀ (root : Option (List FSEntry)) (titles : Titles),
      (checkForContentS root titles).2 = titles ∧
      (checkForContentS root titles).1 = checkForContent root titles := by
  intro root titles
  cases root with
  | none => exact ⟨rfl, rfl⟩
  | some es =>
      constructor
      · simp [checkForContentS, processEntriesS_spec]
      · simp [checkForContentS, checkForContent, processEntriesS_spec]

/-- C1 counterexample: the file `default.XBE` has an extension that
case-insensitively equals `.xbe`, so the claim classifies it
`RecognizedBinary`, yet the code reports it as an unknown file format; and
an update-area file `update.XBE` is silently skipped instead of being
selected for digesting. -/
theorem c1_counterexample :
    strToLower (pathExtension (("default.XBE").data)) = ((".xbe").data)
  ∧ classifyContentFile (FSEntry.file (("default.XBE").data) none) =
      [ScanEvent.unrecognizedFile (("default.XBE").data)]
  ∧ processUpdateFile td0 (("abcd1234").data)
      (FSEntry.file (("update.XBE").data) (some [0])) = [] :=
  ⟨by decide, rfl, rfl⟩

/-- C1 amended: extension recognition is case-sensitive in both areas — a
content-folder file is classified `recognizedBinary` exactly when its
extension equals `.xbe` or `.xbx` byte-for-byte (else `unrecognizedFile`),
and an update-area file is selected for digest-based classification exactly
under the same byte-for-byte condition. -/
theorem c1_ext_exact :
    ∀ (fname : Str) (d : Option (List Nat)) (td : TitleData) (tid : Str),
      (classifyContentFile (FSEntry.file fname d) = [ScanEvent.recognizedBinary fname]
         ↔ (pathExtension fname = ((".xbe").data) ∨ pathExtension fname = ((".xbx").data)))
    ∧ (classifyContentFile (FSEntry.file fname d) = [ScanEvent.recognizedBinary fname]
        ∨ classifyContentFile (FSEntry.file fname d) = [ScanEvent.unrecognizedFile fname])
    ∧ (processUpdateFile td tid (FSEntry.file fname d) ≠ []
         ↔ (pathExtension fname = ((".xbe").data) ∨ pathExtension fname = ((".xbx").data))) := by
  intro fname d td tid
  by_cases hx : pathExtension fname = ((".xbe").data) ∨ pathExtension fname = ((".xbx").data)
  · have h1 : classifyContentFile (FSEntry.file fname d) =
        [ScanEvent.recognizedBinary fname] := by
      simp only [classifyContentFile, if_pos hx]
    have h2 : processUpdateFile td tid (FSEntry.file fname d) ≠ [] := by
      simp only [processUpdateFile, if_pos hx]
      cases d with
      | none => simp
      | some bytes =>
          cases hk : findKnownUpdate td.TitleUpdatesKnown (getSHA1Hash bytes) <;> simp [hk]
    exact ⟨iff_of_true h1 hx, Or.inl h1, iff_of_true h2 hx⟩
  · have h1 : classifyContentFile (FSEntry.file fname d) =
        [ScanEvent.unrecognizedFile fname] := by
      simp only [classifyContentFile, if_neg hx]
    have h2 : processUpdateFile td tid (FSEntry.file fname d) = [] := by
      simp only [processUpdateFile, if_neg hx]
    refine ⟨iff_of_false ?_ hx, Or.inr h1, iff_of_false ?_ hx⟩
    · rw [h1]
      simp
    · rw [h2]
      simp

theorem c1_ext_exact_witness :
    classifyContentFile (FSEntry.file (("a.xbe").data) none) =
      [ScanEvent.recognizedBinary (("a.xbe").data)] :=
  (c1_ext_exact (("a.xbe").data) none td0 (("abcd1234").data)).1.mpr (Or.inl (by decide))

theorem mapME_getStringE_jstr (cids : List Str) :
    mapME getStringE (cids.map JValue.jstr) = .ok cids := by
  induction cids with
  | nil => rfl
  | cons c rest ih => simp [mapME, getStringE, ih]

theorem loadTitle_jobj (ms : List (Str × JValue)) :
    loadTitle (.jobj ms) =
      match loadCids (.jobj ms) with
      | .error e => .error e
      | .ok cids =>
          match loadTUs (.jobj ms) with
          | .error e => .error e
          | .ok tus =>
              match loadTUKs (.jobj ms) with
              | .error e => .error e
              | .ok tuks =>
                  match loadArchs (.jobj ms) with
                  | .error e => .error e
                  | .ok arch =>
                      .ok ⟨(match (JValue.jobj ms).getMember ("Title Name".data) with
                            | .jstr s => s
                            | _ => []), cids, tus, tuks, arch⟩ := rfl

theorem loadTitle_cids (cids : List Str) :
    loadTitle (JValue.jobj [(("Content IDs").data, JValue.jarr (cids.map JValue.jstr))]) =
      .ok { ContentIDs := cids } := by
  simp only [loadTitle_jobj,
    show loadCids (JValue.jobj [(("Content IDs").data, JValue.jarr (cids.map JValue.jstr))]) =
      mapME getStringE (cids.map JValue.jstr) from rfl,
    mapME_getStringE_jstr,
    show loadTUs (JValue.jobj [(("Content IDs").data, JValue.jarr (cids.map JValue.jstr))]) =
      .ok [] from rfl,
    show loadTUKs (JValue.jobj [(("Content IDs").data, JValue.jarr (cids.map JValue.jstr))]) =
      .ok [] from rfl,
    show loadArchs (JValue.jobj [(("Content IDs").data, JValue.jarr (cids.map JValue.jstr))]) =
      .ok [] from rfl,
    show (JValue.jobj [(("Content IDs").data,
      JValue.jarr (cids.map JValue.jstr))]).getMember (("Title Name").data) =
      JValue.null from rfl]

theorem unknownContent_not_in_classify (x : Str) (f : FSEntry) :
    ScanEvent.unknownContent x ∉ classifyContentFile f := by
  cases f with
  | file n d =>
      by_cases hx : pathExtension n = ((".xbe").data) ∨ pathExtension n = ((".xbx").data)
      · simp [classifyContentFile, if_pos hx]
      · simp [classifyContentFile, if_neg hx]
  | dir n es => simp [classifyContentFile]

/-- C2 counterexample: the catalog `c2Json` declares content identifier
`CAFE0001` (upper case) for title `abcd1234`, and the scanned tree `c2Tree`
holds a content folder whose name `CAFE0001` is byte-identical — hence also
case-insensitively equal — to that entry; the claim classifies it as known
content, yet the scan reports `unknownContent`, because construction stores
content identifiers verbatim while classification case-folds only the
folder name. -/
theorem c2_counterexample :
    loadJSONData c2Json = .ok c2Cat
  ∧ checkForContent (some c2Tree) c2Cat =
      [ScanEvent.foundTitle [], ScanEvent.unknownContent (("cafe0001").data),
       ScanEvent.noUpdatesArea (("abcd1234").data)] :=
  ⟨rfl, rfl⟩

/-- C2 amended: catalog construction case-folds title keys only — content
identifiers and archived keys are stored verbatim — and classification
case-folds the discovered folder name, so a discovered content folder is
treated as unknown content exactly when its case-folded name differs
byte-for-byte from every stored `ContentIDs` entry; an entry that matches
only up to catalog-side letter case is not matched. -/
theorem c2_fold_sides :
    (∀ cids : List Str,
        loadTitle (JValue.jobj [(("Content IDs").data, JValue.jarr (cids.map JValue.jstr))]) =
          .ok { ContentIDs := cids })
  ∧ (∀ k v : Str, loadArchived (JValue.jobj [(k, JValue.jstr v)]) = .ok [(k, v)])
  ∧ (∀ (td : TitleData) (dname : Str) (es : List FSEntry),
        (ScanEvent.unknownContent (strToLower dname) ∈
            processContentFolder td (FSEntry.dir dname es))
          ↔ contains td.ContentIDs (strToLower dname) = false) := by
  refine ⟨loadTitle_cids, fun k v => rfl, ?_⟩
  intro td dname es
  simp only [processContentFolder]
  by_cases hc : contains td.ContentIDs (strToLower dname) = true
  · rw [if_pos hc]
    constructor
    · intro hmem
      exfalso
      by_cases ha : findArchivedLabel td.Archived (strToLower dname) ≠ []
      · rw [if_pos ha] at hmem
        simp at hmem
      · rw [if_neg ha] at hmem
        rcases List.mem_cons.mp hmem with h | h
        · exact ScanEvent.noConfusion h
        · rcases List.mem_flatten.mp h with ⟨l, hl, hxl⟩
          rcases List.mem_map.mp hl with ⟨f, hf, rfl⟩
          exact unknownContent_not_in_classify _ f hxl
    · intro hfalse
      rw [hc] at hfalse
      exact Bool.noConfusion hfalse
  · have hc2 : contains td.ContentIDs (strToLower dname) = false :=
      Bool.eq_false_iff.mpr hc
    rw [if_neg hc]
    simp [hc2]

theorem c2_fold_sides_witness :
    loadTitle (JValue.jobj [(("Content IDs").data,
        JValue.jarr ([("CAFE0001").data].map JValue.jstr))]) =
      .ok { ContentIDs := [("CAFE0001").data] } :=
  c2_fold_sides.1 [("CAFE0001").data]

theorem findKnownUpdate_eq_none (l : List TitleUpdate) (dg : Str) :
    findKnownUpdate l dg = none ↔ ∀ u ∈ l, ¬ dg = u.SHA1 := by
  induction l with
  | nil => simp [findKnownUpdate]
  | cons u rest ih =>
      by_cases h : dg = u.SHA1
      · simp [findKnownUpdate, if_pos h, h]
      · simp [findKnownUpdate, if_neg h, ih, h]

theorem findKnownUpdate_mem_some (l : List TitleUpdate) (dg : Str)
    (h : ∃ u ∈ l, dg = u.SHA1) : ∃ nm, findKnownUpdate l dg = some nm := by
  induction l with
  | nil => simp at h
  | cons u rest ih =>
      by_cases hu : dg = u.SHA1
      · exact ⟨u.Name, by simp [findKnownUpdate, if_pos hu]⟩
      · rcases h with ⟨u2, hmem, hsha⟩
        rcases List.mem_cons.mp hmem with rfl | hmem2
        · exact absurd hsha hu
        · rcases ih ⟨u2, hmem2, hsha⟩ with ⟨nm, hnm⟩
          exact ⟨nm, by simp [findKnownUpdate, if_neg hu, hnm]⟩

/-- C4 counterexample: the catalog hash `DEADBEEF` of `c4td` equals the
computed digest `deadbeef` as case-insensitive hex, so the claim classifies
the file `KnownUpdate`, yet the code reports `unknownUpdate`, because the
comparison is exact string equality against the lower-case digest. -/
theorem c4_counterexample :
    strToLower (("DEADBEEF").data) = getSHA1Hash [222, 173, 190, 239]
  ∧ processUpdateFile c4td (("abcd1234").data)
      (FSEntry.file (("u.xbe").data) (some [222, 173, 190, 239])) =
      [ScanEvent.unknownUpdate (("u.xbe").data) (("deadbeef").data)] :=
  ⟨by decide, rfl⟩

/-- C4 amended: the digest of an update-area file is compared with each
`TitleUpdatesKnown` hash by exact string equality against the computed
lower-case hex digest — first match wins — and when no entry is exactly
equal the outcome is `unknownUpdate` carrying the exact computed digest. -/
theorem c4_hash_exact :
    ∀ (td : TitleData) (tid fname : Str) (bytes : List Nat),
      (pathExtension fname = ((".xbe").data) ∨ pathExtension fname = ((".xbx").data)) →
      ((∀ u ∈ td.TitleUpdatesKnown, ¬ getSHA1Hash bytes = u.SHA1) →
          processUpdateFile td tid (FSEntry.file fname (some bytes)) =
            [ScanEvent.unknownUpdate fname (getSHA1Hash bytes)])
      ∧ ((∃ u ∈ td.TitleUpdatesKnown, getSHA1Hash bytes = u.SHA1) →
          ∃ nm, findKnownUpdate td.TitleUpdatesKnown (getSHA1Hash bytes) = some nm ∧
            processUpdateFile td tid (FSEntry.file fname (some bytes)) =
              [ScanEvent.knownUpdate tid (stripUpdateName nm) (getSHA1Hash bytes)]) := by
  intro td tid fname bytes hx
  constructor
  · intro hnone
    have hn : findKnownUpdate td.TitleUpdatesKnown (getSHA1Hash bytes) = none :=
      (findKnownUpdate_eq_none _ _).mpr hnone
    simp only [processUpdateFile, if_pos hx, hn]
  · intro hex
    rcases findKnownUpdate_mem_some _ _ hex with ⟨nm, hnm⟩
    exact ⟨nm, hnm, by simp only [processUpdateFile, if_pos hx, hnm]⟩

theorem c4_hash_exact_witness :
    processUpdateFile c4td (("abcd1234").data)
        (FSEntry.file (("u.xbe").data) (some [222, 173, 190, 239])) =
      [ScanEvent.unknownUpdate (("u.xbe").data) (getSHA1Hash [222, 173, 190, 239])]
  ∧ ∃ nm, findKnownUpdate c4tdLow.TitleUpdatesKnown (getSHA1Hash [222, 173, 190, 239]) =
        some nm ∧
      processUpdateFile c4tdLow (("abcd1234").data)
          (FSEntry.file (("u.xbe").data) (some [222, 173, 190, 239])) =
        [ScanEvent.knownUpdate (("abcd1234").data) (stripUpdateName nm)
          (getSHA1Hash [222, 173, 190, 239])] :=
  ⟨(c4_hash_exact c4td (("abcd1234").data) (("u.xbe").data) [222, 173, 190, 239]
      (Or.inl (by decide))).1 (by decide),
   (c4_hash_exact c4tdLow (("abcd1234").data) (("u.xbe").data) [222, 173, 190, 239]
      (Or.inl (by decide))).2 ⟨⟨("Update A").data, ("deadbeef").data⟩, by decide, by decide⟩⟩

theorem getStringE_ne_mc (j : JValue) : getStringE j ≠ .error .malformedCatalog := by
  cases j <;> simp [getStringE]

theorem mapME_ne_mc {α β : Type} (f : α → Except LoadErr β)
    (hf : ∀ a, f a ≠ .error .malformedCatalog) :
    ∀ xs, mapME f xs ≠ .error .malformedCatalog := by
  intro xs
  induction xs with
  | nil => simp [mapME]
  | cons x rest ih =>
      simp only [mapME]
      cases hfx : f x with
      | error e2 =>
          intro hc
          have h2 : e2 = LoadErr.malformedCatalog := Except.error.inj hc
          subst h2
          exact hf x hfx
      | ok y =>
          cases hrest : mapME f rest with
          | error e3 =>
              intro hc
              have h3 : e3 = LoadErr.malformedCatalog := Except.error.inj hc
              subst h3
              exact ih hrest
          | ok ys => simp

theorem loadUpdate_ne_mc (u : JValue) : loadUpdate u ≠ .error .malformedCatalog := by
  cases u with
  | jobj ms =>
      simp only [loadUpdate]
      cases h1 : getStringE ((JValue.jobj ms).getMember (("Name").data)) with
      | error e1 =>
          intro hc
          have h2 : e1 = LoadErr.malformedCatalog := Except.error.inj hc
          subst h2
          exact getStringE_ne_mc _ h1
      | ok n =>
          cases h2 : getStringE ((JValue.jobj ms).getMember (("SHA1").data)) with
          | error e2 =>
              intro hc
              have h3 : e2 = LoadErr.malformedCatalog := Except.error.inj hc
              subst h3
              exact getStringE_ne_mc _ h2
          | ok s => simp
  | null => simp [loadUpdate]
  | jbool b => simp [loadUpdate]
  | jnum n => simp [loadUpdate]
  | jstr s => simp [loadUpdate]
  | jarr xs => simp [loadUpdate]

theorem loadArchMembers_ne_mc (ms : List (Str × JValue)) :
    ∀ acc, loadArchMembers ms acc ≠ .error .malformedCatalog := by
  induction ms with
  | nil => intro acc; simp [loadArchMembers]
  | cons p rest ih =>
      obtain ⟨k, v⟩ := p
      intro acc
      simp only [loadArchMembers]
      cases hv : getStringE v with
      | error e =>
          intro hc
          have h2 : e = LoadErr.malformedCatalog := Except.error.inj hc
          subst h2
          exact getStringE_ne_mc _ hv
      | ok s => exact ih _

theorem loadArchived_ne_mc (a : JValue) : loadArchived a ≠ .error .malformedCatalog := by
  cases a with
  | jobj ms => exact loadArchMembers_ne_mc ms []
  | null => simp [loadArchived]
  | jbool b => simp [loadArchived]
  | jnum n => simp [loadArchived]
  | jstr s => simp [loadArchived]
  | jarr xs => simp [loadArchived]

theorem loadCids_ne_mc (t : JValue) : loadCids t ≠ .error .malformedCatalog := by
  simp only [loadCids]
  cases ht : t.getMember (("Content IDs").data) with
  | jarr xs => exact mapME_ne_mc getStringE getStringE_ne_mc xs
  | null => simp
  | jbool b => simp
  | jnum n => simp
  | jstr s => simp
  | jobj ms => simp

theorem loadTUs_ne_mc (t : JValue) : loadTUs t ≠ .error .malformedCatalog := by
  simp only [loadTUs]
  cases ht : t.getMember (("Title Updates").data) with
  | jarr xs => exact mapME_ne_mc loadUpdate loadUpdate_ne_mc xs
  | null => simp
  | jbool b => simp
  | jnum n => simp
  | jstr s => simp
  | jobj ms => simp

theorem loadTUKs_ne_mc (t : JValue) : loadTUKs t ≠ .error .malformedCatalog := by
  simp only [loadTUKs]
  cases ht : t.getMember (("Title Updates Known").data) with
  | jarr xs => exact mapME_ne_mc loadUpdate loadUpdate_ne_mc xs
  | null => simp
  | jbool b => simp
  | jnum n => simp
  | jstr s => simp
  | jobj ms => simp

theorem loadArchs_ne_mc (t : JValue) : loadArchs t ≠ .error .malformedCatalog := by
  simp only [loadArchs]
  cases ht : t.getMember (("Archived").data) with
  | jarr xs => exact mapME_ne_mc loadArchived loadArchived_ne_mc xs
  | null => simp
  | jbool b => simp
  | jnum n => simp
  | jstr s => simp
  | jobj ms => simp

theorem loadTitle_ne_mc (t : JValue) : loadTitle t ≠ .error .malformedCatalog := by
  cases t with
  | jobj ms =>
      rw [loadTitle_jobj]
      cases h1 : loadCids (JValue.jobj ms) with
      | error e1 =>
          intro hc
          have h : e1 = LoadErr.malformedCatalog := Except.error.inj hc
          subst h
          exact loadCids_ne_mc _ h1
      | ok cids =>
          cases h2 : loadTUs (JValue.jobj ms) with
          | error e2 =>
              intro hc
              have h : e2 = LoadErr.malformedCatalog := Except.error.inj hc
              subst h
              exact loadTUs_ne_mc _ h2
          | ok tus =>
              cases h3 : loadTUKs (JValue.jobj ms) with
              | error e3 =>
                  intro hc
                  have h : e3 = LoadErr.malformedCatalog := Except.error.inj hc
                  subst h
                  exact loadTUKs_ne_mc _ h3
              | ok tuks =>
                  cases h4 : loadArchs (JValue.jobj ms) with
                  | error e4 =>
                      intro hc
                      have h : e4 = LoadErr.malformedCatalog := Except.error.inj hc
                      subst h
                      exact loadArchs_ne_mc _ h4
                  | ok arch => simp
  | null => simp [loadTitle]
  | jbool b => simp [loadTitle]
  | jnum n => simp [loadTitle]
  | jstr s => simp [loadTitle]
  | jarr xs => simp [loadTitle]

theorem loadTitlesList_ne_mc (ms : List (Str × JValue)) :
    ∀ acc, loadTitlesList ms acc ≠ .error .malformedCatalog := by
  induction ms with
  | nil => intro acc; simp [loadTitlesList]
  | cons p rest ih =>
      obtain ⟨k, v⟩ := p
      intro acc
      simp only [loadTitlesList]
      cases hl : loadTitle v with
      | error e =>
          intro hc
          have h : e = LoadErr.malformedCatalog := Except.error.inj hc
          subst h
          exact loadTitle_ne_mc _ hl
      | ok data => exact ih _

theorem loadJSONData_mc_iff (j : JValue) :
    loadJSONData j = .error .malformedCatalog ↔
      ¬ (j.isObjB = true ∧ (j.getMember (("Titles").data)).isObjB = true) := by
  constructor
  · intro h
    rintro ⟨h1, h2⟩
    simp only [loadJSONData] at h
    rw [if_neg (by simp [h1])] at h
    cases hm : j.getMember (("Titles").data) with
    | jobj ms =>
        rw [hm] at h
        exact loadTitlesList_ne_mc ms [] h
    | null => rw [hm] at h2; exact Bool.noConfusion h2
    | jbool b => rw [hm] at h2; exact Bool.noConfusion h2
    | jnum n => rw [hm] at h2; exact Bool.noConfusion h2
    | jstr s => rw [hm] at h2; exact Bool.noConfusion h2
    | jarr xs => rw [hm] at h2; exact Bool.noConfusion h2
  · intro h
    by_cases h1 : j.isObjB = true
    · have h2 : (j.getMember (("Titles").data)).isObjB = false := by
        cases hb : (j.getMember (("Titles").data)).isObjB
        · rfl
        · exact absurd ⟨h1, hb⟩ h
      simp only [loadJSONData]
      rw [if_neg (by simp [h1])]
      cases hm : j.getMember (("Titles").data) with
      | jobj ms => rw [hm] at h2; exact absurd h2 (by simp [JValue.isObjB])
      | null => rfl
      | jbool b => rfl
      | jnum n => rfl
      | jstr s => rfl
      | jarr xs => rfl
    · have h1f : j.isObjB = false := by
        cases hb : j.isObjB
        · rfl
        · exact absurd hb h1
      simp only [loadJSONData]
      rw [if_pos h1f]

theorem exOk_getStringE (j : JValue) : exOk (getStringE j) = j.isStrB := by
  cases j <;> rfl

theorem exOk_mapME {α β : Type} (f : α → Except LoadErr β) (p : α → Bool)
    (hf : ∀ a, exOk (f a) = p a) :
    ∀ xs, exOk (mapME f xs) = xs.all p := by
  intro xs
  induction xs with
  | nil => rfl
  | cons x rest ih =>
      simp only [mapME, List.all_cons]
      cases hfx : f x with
      | error e2 =>
          have hp : p x = false := by rw [← hf x, hfx]; rfl
          simp [exOk, hp]
      | ok y =>
          have hp : p x = true := by rw [← hf x, hfx]; rfl
          cases hrest : mapME f rest with
          | error e3 =>
              have hr : rest.all p = false := by rw [← ih, hrest]; rfl
              simp [exOk, hp, hr]
          | ok ys =>
              have hr : rest.all p = true := by rw [← ih, hrest]; rfl
              simp [exOk, hp, hr]

theorem exOk_loadUpdate (u : JValue) : exOk (loadUpdate u) = updateWF u := by
  cases u with
  | jobj ms =>
      simp only [loadUpdate, updateWF]
      cases h1 : getStringE ((JValue.jobj ms).getMember (("Name").data)) with
      | error e1 =>
          have hn : ((JValue.jobj ms).getMember (("Name").data)).isStrB = false := by
            rw [← exOk_getStringE, h1]; rfl
          simp [exOk, hn]
      | ok n =>
          have hn : ((JValue.jobj ms).getMember (("Name").data)).isStrB = true := by
            rw [← exOk_getStringE, h1]; rfl
          cases h2 : getStringE ((JValue.jobj ms).getMember (("SHA1").data)) with
          | error e2 =>
              have hs : ((JValue.jobj ms).getMember (("SHA1").data)).isStrB = false := by
                rw [← exOk_getStringE, h2]; rfl
              simp [exOk, hn, hs]
          | ok s =>
              have hs : ((JValue.jobj ms).getMember (("SHA1").data)).isStrB = true := by
                rw [← exOk_getStringE, h2]; rfl
              simp [exOk, hn, hs]
  | null => rfl
  | jbool b => rfl
  | jnum n => rfl
  | jstr s => rfl
  | jarr xs => rfl

theorem exOk_loadArchMembers (ms : List (Str × JValue)) :
    ∀ acc, exOk (loadArchMembers ms acc) = ms.all (fun m => m.2.isStrB) := by
  induction ms with
  | nil => intro acc; rfl
  | cons p rest ih =>
      obtain ⟨k, v⟩ := p
      intro acc
      simp only [loadArchMembers, List.all_cons]
      cases hv : getStringE v with
      | error e =>
          have hs : v.isStrB = false := by rw [← exOk_getStringE, hv]; rfl
          simp [exOk, hs]
      | ok s =>
          have hs : v.isStrB = true := by rw [← exOk_getStringE, hv]; rfl
          simp [hs, ih]

theorem exOk_loadArchived (a : JValue) : exOk (loadArchived a) = archWF a := by
  cases a with
  | jobj ms => exact exOk_loadArchMembers ms []
  | null => rfl
  | jbool b => rfl
  | jnum n => rfl
  | jstr s => rfl
  | jarr xs => rfl

theorem exOk_loadCids (t : JValue) : exOk (loadCids t) = cidsWF t := by
  simp only [loadCids, cidsWF]
  cases ht : t.getMember (("Content IDs").data) with
  | jarr xs => exact exOk_mapME getStringE JValue.isStrB exOk_getStringE xs
  | null => rfl
  | jbool b => rfl
  | jnum n => rfl
  | jstr s => rfl
  | jobj ms => rfl

theorem exOk_loadTUs (t : JValue) : exOk (loadTUs t) = tusWF t := by
  simp only [loadTUs, tusWF]
  cases ht : t.getMember (("Title Updates").data) with
  | jarr xs => exact exOk_mapME loadUpdate updateWF exOk_loadUpdate xs
  | null => rfl
  | jbool b => rfl
  | jnum n => rfl
  | jstr s => rfl
  | jobj ms => rfl

theorem exOk_loadTUKs (t : JValue) : exOk (loadTUKs t) = tuksWF t := by
  simp only [loadTUKs, tuksWF]
  cases ht : t.getMember (("Title Updates Known").data) with
  | jarr xs => exact exOk_mapME loadUpdate updateWF exOk_loadUpdate xs
  | null => rfl
  | jbool b => rfl
  | jnum n => rfl
  | jstr s => rfl
  | jobj ms => rfl

theorem exOk_loadArchs (t : JValue) : exOk (loadArchs t) = archsWF t := by
  simp only [loadArchs, archsWF]
  cases ht : t.getMember (("Archived").data) with
  | jarr xs => exact exOk_mapME loadArchived archWF exOk_loadArchived xs
  | null => rfl
  | jbool b => rfl
  | jnum n => rfl
  | jstr s => rfl
  | jobj ms => rfl

theorem exOk_loadTitle (t : JValue) : exOk (loadTitle t) = titleWF t := by
  cases t with
  | jobj ms =>
      rw [loadTitle_jobj]
      simp only [titleWF]
      cases h1 : loadCids (JValue.jobj ms) with
      | error e1 =>
          have hc : cidsWF (JValue.jobj ms) = false := by rw [← exOk_loadCids, h1]; rfl
          simp [exOk, hc]
      | ok cids =>
          have hc : cidsWF (JValue.jobj ms) = true := by rw [← exOk_loadCids, h1]; rfl
          cases h2 : loadTUs (JValue.jobj ms) with
          | error e2 =>
              have ht : tusWF (JValue.jobj ms) = false := by rw [← exOk_loadTUs, h2]; rfl
              simp [exOk, hc, ht]
          | ok tus =>
              have ht : tusWF (JValue.jobj ms) = true := by rw [← exOk_loadTUs, h2]; rfl
              cases h3 : loadTUKs (JValue.jobj ms) with
              | error e3 =>
                  have htk : tuksWF (JValue.jobj ms) = false := by
                    rw [← exOk_loadTUKs, h3]; rfl
                  simp [exOk, hc, ht, htk]
              | ok tuks =>
                  have htk : tuksWF (JValue.jobj ms) = true := by
                    rw [← exOk_loadTUKs, h3]; rfl
                  cases h4 : loadArchs (JValue.jobj ms) with
                  | error e4 =>
                      have ha : archsWF (JValue.jobj ms) = false := by
                        rw [← exOk_loadArchs, h4]; rfl
                      simp [exOk, hc, ht, htk, ha]
                  | ok arch =>
                      have ha : archsWF (JValue.jobj ms) = true := by
                        rw [← exOk_loadArchs, h4]; rfl
                      simp [exOk, hc, ht, htk, ha]
  | null => rfl
  | jbool b => rfl
  | jnum n => rfl
  | jstr s => rfl
  | jarr xs => rfl

theorem exOk_loadTitlesList (ms : List (Str × JValue)) :
    ∀ acc, exOk (loadTitlesList ms acc) = ms.all (fun m => titleWF m.2) := by
  induction ms with
  | nil => intro acc; rfl
  | cons q rest ih =>
      obtain ⟨k, v⟩ := q
      intro acc
      simp only [loadTitlesList, List.all_cons]
      cases hl : loadTitle v with
      | error e =>
          have hw : titleWF v = false := by rw [← exOk_loadTitle, hl]; rfl
          simp [exOk, hw]
      | ok data =>
          have hw : titleWF v = true := by rw [← exOk_loadTitle, hl]; rfl
          simp [hw, ih]

theorem lookupMap_mapInsert {β : Type} (m : List (Str × β)) (k k2 : Str) (v : β) :
    lookupMap (mapInsert m k v) k2 = if k2 = k then some v else lookupMap m k2 := by
  induction m with
  | nil =>
      simp only [mapInsert, lookupMap]
      by_cases h : k2 = k
      · subst h
        simp
      · have hb : (k == k2) = false := beq_eq_false_iff_ne.mpr (fun he => h he.symm)
        simp [hb, h]
  | cons p rest ih =>
      obtain ⟨k3, v3⟩ := p
      simp only [mapInsert]
      by_cases h3 : k3 = k
      · subst h3
        rw [if_pos rfl]
        simp only [lookupMap]
        by_cases h : k2 = k3
        · subst h
          simp
        · have hb : (k3 == k2) = false := beq_eq_false_iff_ne.mpr (fun he => h he.symm)
          simp [hb, h]
      · rw [if_neg h3]
        simp only [lookupMap]
        cases hb2 : (k3 == k2) with
        | true =>
            have hk23 : k3 = k2 := beq_iff_eq.mp hb2
            have hne : ¬ k2 = k := fun hc => h3 (by rw [hk23, hc])
            simp [hne]
        | false =>
            simp only [Bool.false_eq_true, if_false]
            exact ih

theorem loadTitlesList_preserves (ms : List (Str × JValue)) :
    ∀ (acc c : Titles), loadTitlesList ms acc = .ok c →
      ∀ k2, (lookupMap acc k2).isSome = true → (lookupMap c k2).isSome = true := by
  induction ms with
  | nil =>
      intro acc c h k2 hk
      simp only [loadTitlesList] at h
      injection h with h
      subst h
      exact hk
  | cons p rest ih =>
      obtain ⟨k, v⟩ := p
      intro acc c h k2 hk
      simp only [loadTitlesList] at h
      cases hl : loadTitle v with
      | error e => rw [hl] at h; exact Except.noConfusion h
      | ok data =>
          rw [hl] at h
          refine ih _ _ h k2 ?_
          rw [lookupMap_mapInsert]
          by_cases hkk : k2 = strToLower k
          · simp [hkk]
          · rw [if_neg hkk]
            exact hk

theorem loadTitlesList_mem (ms : List (Str × JValue)) :
    ∀ (acc c : Titles), loadTitlesList ms acc = .ok c →
      ∀ p ∈ ms, (lookupMap c (strToLower p.1)).isSome = true := by
  induction ms with
  | nil => intro acc c h p hp; simp at hp
  | cons q rest ih =>
      obtain ⟨k, v⟩ := q
      intro acc c h p hp
      simp only [loadTitlesList] at h
      cases hl : loadTitle v with
      | error e => rw [hl] at h; exact Except.noConfusion h
      | ok data =>
          rw [hl] at h
          rcases List.mem_cons.mp hp with heq | hp2
          · subst heq
            refine loadTitlesList_preserves rest _ _ h _ ?_
            rw [lookupMap_mapInsert]
            simp
          · exact ih _ _ h p hp2

/-- C3 counterexample: `c3Json` is an object with a titles collection, but
its only title has a `Title Updates` entry lacking both the name and the
hash field.  The claim says construction fails with `MalformedCatalog`;
instead the unchecked `update["Name"].GetString()` trips the type assertion of the JSON
library (undefined behaviour in a release build), which is a
different failure from the `std::runtime_error` throws modelled by
`malformedCatalog`. -/
theorem c3_counterexample :
    loadJSONData c3Json = .error .typeAssert
  ∧ loadJSONData c3Json ≠ .error .malformedCatalog := by
  constructor
  · rfl
  · intro h
    rw [show loadJSONData c3Json = .error .typeAssert from rfl] at h
    exact LoadErr.noConfusion (Except.error.inj h)

/-- C3 amended: construction fails with `MalformedCatalog` exactly when the
parsed input is not an object or its `Titles` member is missing or not an
object; a title-update entry lacking a name or hash field instead trips an
unchecked library type assertion (`typeAssert`, undefined behaviour in
release builds), not `MalformedCatalog`; and when every title entry is
well-typed, construction succeeds and the catalog holds a record under the
case-folded key of every title entry. -/
theorem c3_malformed_exact :
    (∀ j : JValue, loadJSONData j = .error .malformedCatalog ↔
        ¬ (j.isObjB = true ∧ (j.getMember (("Titles").data)).isObjB = true))
  ∧ (∀ (j : JValue) (ms : List (Str × JValue)),
        j.isObjB = true → j.getMember (("Titles").data) = .jobj ms →
        exOk (loadJSONData j) = ms.all (fun m => titleWF m.2)
        ∧ ∀ c, loadJSONData j = .ok c →
            ∀ p ∈ ms, (lookupMap c (strToLower p.1)).isSome = true) := by
  refine ⟨loadJSONData_mc_iff, ?_⟩
  intro j ms h1 hm
  have hload : loadJSONData j = loadTitlesList ms [] := by
    simp only [loadJSONData]
    rw [if_neg (by simp [h1]), hm]
  constructor
  · rw [hload]
    exact exOk_loadTitlesList ms []
  · intro c hc p hp
    rw [hload] at hc
    exact loadTitlesList_mem ms [] c hc p hp

theorem c3_malformed_exact_witness :
    (exOk (loadJSONData c3JsonWF) =
        ([((("ABCD1234").data : Str), JValue.jobj [])]).all (fun m => titleWF m.2)
      ∧ ∀ c, loadJSONData c3JsonWF = .ok c →
          ∀ p ∈ [((("ABCD1234").data : Str), JValue.jobj [])],
            (lookupMap c (strToLower p.1)).isSome = true)
  ∧ loadJSONData (JValue.jarr []) = .error .malformedCatalog :=
  ⟨c3_malformed_exact.2 c3JsonWF [((("ABCD1234").data), JValue.jobj [])] (by rfl) (by rfl),
   (c3_malformed_exact.1 (JValue.jarr [])).mpr (by decide)⟩

/-- C5: the process exit status is non-zero exactly when the catalog fails to
load in an invocation that attempts it, or the required root directory
`dump/TDATA` of a scan invocation is absent; it is zero in every other case and is
independent of the content of the scanned tree, hence of how many files
failed digest computation.  (`-help` returns before the catalog is read, so
no load is attempted and the exit status is zero; in the non-Windows build
`-fatxplorer` performs no scan.) -/
theorem c5_exit_status :
    ∀ (args : List Str) (catalogFile : Option JValue) (defaultRoot : Option (List FSEntry)),
      ((mainRun args catalogFile defaultRoot).1 = 0 ∨ (mainRun args catalogFile defaultRoot).1 = 1)
    ∧ ((mainRun args catalogFile defaultRoot).1 = 1 ↔
         ((parseArgsLoop args false [] false).isSome = true ∧
          (catalogLoadFails catalogFile = true ∨
            (catalogLoadFails catalogFile = false ∧ isScanMode args = true ∧
              defaultRoot = none))))
    ∧ (∀ es1 es2 : List FSEntry,
        (mainRun args catalogFile (some es1)).1 = (mainRun args catalogFile (some es2)).1) := by
  intro args cf root
  cases hp : parseArgsLoop args false [] false with
  | none => simp [mainRun, hp]
  | some trip =>
      obtain ⟨s, t, f⟩ := trip
      cases cf with
      | none => simp [mainRun, hp, catalogLoadFails]
      | some jv =>
          cases hl : loadJSONData jv with
          | error e => simp [mainRun, hp, hl, catalogLoadFails]
          | ok titles =>
              by_cases ht : t = []
              · subst ht
                cases s with
                | true => simp [mainRun, hp, hl, catalogLoadFails, isScanMode]
                | false =>
                    cases f with
                    | true => simp [mainRun, hp, hl, catalogLoadFails, isScanMode]
                    | false =>
                        cases root with
                        | none => simp [mainRun, hp, hl, catalogLoadFails, isScanMode]
                        | some es => simp [mainRun, hp, hl, catalogLoadFails, isScanMode]
              · simp [mainRun, hp, hl, catalogLoadFails, isScanMode, ht]

theorem c5_exit_status_witness :
    ((mainRun [("-summarize").data] (some c2Json) none).1 = 0 ∨
      (mainRun [("-summarize").data] (some c2Json) none).1 = 1)
  ∧ ((mainRun [("-summarize").data] (some c2Json) none).1 = 1 ↔
       ((parseArgsLoop [("-summarize").data] false [] false).isSome = true ∧
        (catalogLoadFails (some c2Json) = true ∨
          (catalogLoadFails (some c2Json) = false ∧
            isScanMode [("-summarize").data] = true ∧
            (none : Option (List FSEntry)) = none))))
  ∧ (∀ es1 es2 : List FSEntry,
      (mainRun [("-summarize").data] (some c2Json) (some es1)).1 =
        (mainRun [("-summarize").data] (some c2Json) (some es2)).1) :=
  c5_exit_status [("-summarize").data] (some c2Json) none
